import Mathlib

/-!
# Verification of the Ninja-Notes voice/scheduling pipeline

Shallow embedding of the voice-command extraction and action-scheduling
pipeline of the Ninja-Notes web app, together with proofs about the
properties its specification states.

Conventions of the embedding:
* JS `Date` values are modelled as epoch milliseconds (`Int`).  The edge
  runtime executes in UTC, where `setDate(getDate() + n)` adds exactly
  `n * 86400000` ms and `setHours(h, m, s, ms)` replaces the time of day
  within the current calendar day (day boundaries every 86400000 ms,
  day index obtained by floor division).
* JS strings are modelled as `String` / `List Char`; `toLowerCase` is
  per-character `Char.toLower` (all inputs of interest are ASCII).
* The three regular expressions used by `parseTimeExpression` are each
  embedded by a dedicated scanning function that is faithful to the
  regex semantics on the shapes that occur (leftmost match position,
  alternatives in order; the greedy `\d+`/`\d{1,2}` pieces never need
  backtracking in these patterns because what follows a digit run is
  either a mandatory space, which a shorter digit prefix cannot
  produce, or only optional pieces).
* Fallible external calls are modelled with `Option`/`Except`; durable
  writes are modelled as pure state transformations.
-/

namespace NinjaNotes

/-- Epoch-milliseconds model of a JS `Date` (edge runtime, UTC). -/
abbrev JSDate := Int

def msPerSecond : Int := 1000

def msPerMinute : Int := 60 * 1000

def msPerHour : Int := 60 * 60 * 1000

def msPerDay : Int := 24 * 60 * 60 * 1000

/-- `d.setDate(d.getDate() + n)` in UTC: adds exactly `n` calendar days
(`Date` normalises day-of-month overflow, so this is `n * 86400000` ms). -/
def jsAddDays (t : JSDate) (n : Nat) : JSDate := t + n * msPerDay

/-- `d.setHours(h, m, s, ms)` in UTC: keeps the calendar day of `t` and
sets the time of day (hours ≥ 24 roll into following days exactly as JS
normalisation does). -/
def jsSetHours (t : JSDate) (h m s ms : Nat) : JSDate :=
  msPerDay * (t.fdiv msPerDay) + (h * msPerHour + m * msPerMinute + s * msPerSecond + ms)

/-- JS `text.includes(sub)` on `List Char`. -/
def listIncludes (sub : List Char) : List Char → Bool
  | [] => sub.isEmpty
  | c :: rest => sub.isPrefixOf (c :: rest) || listIncludes sub rest

/-- JS `text.includes(sub)`. -/
def jsIncludes (text sub : String) : Bool := listIncludes sub.data text.data

/-- JS `text.toLowerCase()` (ASCII). -/
def jsToLower (s : String) : String := ⟨s.data.map Char.toLower⟩

/-- `parseInt` on a non-empty digit run. -/
def digitsToNat (ds : List Char) : Nat :=
  ds.foldl (fun acc c => acc * 10 + (c.toNat - 48)) 0

/-- The number words accepted by the minutes branch of
`parseTimeExpression`, in the source's key/alternation order. -/
def numberWords20 : List (String × Nat) :=
  [("one", 1), ("two", 2), ("three", 3), ("four", 4), ("five", 5),
   ("six", 6), ("seven", 7), ("eight", 8), ("nine", 9), ("ten", 10),
   ("eleven", 11), ("twelve", 12), ("thirteen", 13), ("fourteen", 14), ("fifteen", 15),
   ("sixteen", 16), ("seventeen", 17), ("eighteen", 18), ("nineteen", 19), ("twenty", 20)]

/-- The number words of the hours branch. -/
def numberWords12 : List (String × Nat) :=
  [("one", 1), ("two", 2), ("three", 3), ("four", 4), ("five", 5),
   ("six", 6), ("seven", 7), ("eight", 8), ("nine", 9), ("ten", 10),
   ("eleven", 11), ("twelve", 12)]

/-- The number words of the days branch. -/
def numberWords7 : List (String × Nat) :=
  [("one", 1), ("two", 2), ("three", 3), ("four", 4), ("five", 5),
   ("six", 6), ("seven", 7)]

/-- The spelled-out minute counts that resolve to their own value: the
fallback scans the whole text for the first of the twenty number words it
contains, so `fourteen`, `sixteen`, `seventeen`, `eighteen` and
`nineteen` are preempted by their embedded substrings `four`, `six`,
`seven`, `eight` and `nine`. -/
def spelledMinutesExact : List (String × Nat) :=
  [("one", 1), ("two", 2), ("three", 3), ("four", 4), ("five", 5),
   ("six", 6), ("seven", 7), ("eight", 8), ("nine", 9), ("ten", 10),
   ("eleven", 11), ("twelve", 12), ("thirteen", 13), ("fifteen", 15), ("twenty", 20)]

/-- `Object.keys(numberWords).find(word => text.includes(word))`, then the
map lookup: first listed word occurring anywhere in `text`. -/
def findNumberWord (words : List (String × Nat)) (text : List Char) : Option Nat :=
  match words with
  | [] => none
  | (w, v) :: rest => if listIncludes w.data text then some v else findNumberWord rest text

/-- The `" "` + unit tail of the duration regexes: a literal space followed
by one of the unit alternatives (e.g. `(?:minutes?|mins?)` expands to the
literals `minutes`, `minute`, `mins`, `min` in greedy alternation order;
nothing follows the unit in the pattern, so a prefix match suffices). -/
def unitFollows (units : List String) : List Char → Bool
  | ' ' :: rest => units.any (fun u => u.data.isPrefixOf rest)
  | _ => false

/-- Matches `(?:(\d+)|w₁|…|wₖ) (?:unit…)` at one position (right after the
literal `in `).  Returns `some (some n)` when the digit alternative
captured `n`, `some none` when a word alternative matched (the regex's
group 1 is then undefined) and `none` when no alternative matches here.
The greedy `\d+` never backtracks profitably: a shorter digit prefix is
followed by another digit, not the mandatory space, and the word
alternatives start with letters, so they cannot fire on a digit. -/
def matchNumUnitAt (words : List String) (units : List String) (s : List Char) :
    Option (Option Nat) :=
  let ds := s.takeWhile Char.isDigit
  if ds.isEmpty then
    if words.any (fun w => w.data.isPrefixOf s && unitFollows units (s.drop w.data.length)) then
      some none
    else none
  else
    if unitFollows units (s.drop ds.length) then some (some (digitsToNat ds)) else none

/-- `text.match(/in (?:(\d+)|w₁|…|wₖ) (?:unit…)/)`: leftmost position where
the pattern matches, returning the state of capture group 1 there. -/
def searchInNumUnit (words units : List String) : List Char → Option (Option Nat)
  | [] => none
  | c :: rest =>
    match (if ['i', 'n', ' '].isPrefixOf (c :: rest)
           then matchNumUnitAt words units (rest.drop 2) else none) with
    | some g => some g
    | none => searchInNumUnit words units rest

/-- am/pm marker of the `tomorrow` time regex. -/
inductive Meridiem where
  | am
  | pm
deriving DecidableEq

/-- Matches `/at (\d{1,2}):?(\d{2})?\s*(am|pm)?/` at one position.  After
the mandatory 1–2 digits everything is optional, so the greedy pieces never
backtrack.  Returns (hours digits, minutes digits or 0, optional am/pm). -/
def matchAtTimeAt (s : List Char) : Option (Nat × Nat × Option Meridiem) :=
  if ['a', 't', ' '].isPrefixOf s then
    let r := s.drop 3
    match r with
    | c :: _ =>
      if c.isDigit then
        let ds := (r.takeWhile Char.isDigit).take 2
        let r1 := r.drop ds.length
        let r2 := if r1.headD 'x' = ':' then r1.drop 1 else r1
        let mm := r2.take 2
        let hasMM := mm.length = 2 && mm.all Char.isDigit
        let r3 := if hasMM then r2.drop 2 else r2
        let r4 := r3.dropWhile Char.isWhitespace
        let period : Option Meridiem :=
          if ['a', 'm'].isPrefixOf r4 then some Meridiem.am
          else if ['p', 'm'].isPrefixOf r4 then some Meridiem.pm
          else none
        some (digitsToNat ds, (if hasMM then digitsToNat mm else 0), period)
      else none
    | [] => none
  else none

/-- Leftmost match of `/at (\d{1,2}):?(\d{2})?\s*(am|pm)?/`. -/
def searchAtTime : List Char → Option (Nat × Nat × Option Meridiem)
  | [] => none
  | c :: rest =>
    match matchAtTimeAt (c :: rest) with
    | some m => some m
    | none => searchAtTime rest

/-- Embedding of `parseTimeExpression(timeText, baseTime)`
(src/unnamed/part_011, lines 572–691).  Branch structure mirrors the
source: inside the `text.includes('in ')` block the minutes, hours and
days regexes are tried in order, each branch returning only when its
parsed count is positive (a zero or missing count falls through); then
the `tomorrow` block, then `next week`, else `null`. -/
def parseTimeExpression (timeText : String) (baseTime : JSDate) : Option JSDate :=
  let text := (jsToLower timeText).data
  let now := baseTime
  let inBlock : Option JSDate :=
    if listIncludes "in ".data text then
      let tryMinutes : Option JSDate :=
        match searchInNumUnit (numberWords20.map Prod.fst)
            ["minutes", "minute", "mins", "min"] text with
        | some g =>
          let minutes := match g with
            | some d => d
            | none => (findNumberWord numberWords20 text).getD 0
          if minutes > 0 then some (now + minutes * 60 * 1000) else none
        | none => none
      let tryHours : Option JSDate :=
        match searchInNumUnit (numberWords12.map Prod.fst)
            ["hours", "hour", "hrs", "hr"] text with
        | some g =>
          let hours := match g with
            | some d => d
            | none => (findNumberWord numberWords12 text).getD 0
          if hours > 0 then some (now + hours * 60 * 60 * 1000) else none
        | none => none
      let tryDays : Option JSDate :=
        match searchInNumUnit (numberWords7.map Prod.fst) ["days", "day"] text with
        | some g =>
          let days := match g with
            | some d => d
            | none => (findNumberWord numberWords7 text).getD 0
          if days > 0 then some (now + days * 24 * 60 * 60 * 1000) else none
        | none => none
      (tryMinutes.orElse fun _ => tryHours).orElse fun _ => tryDays
    else none
  match inBlock with
  | some r => some r
  | none =>
    if listIncludes "tomorrow".data text then
      let tomorrow := jsAddDays now 1
      match searchAtTime text with
      | some (h, m, period) =>
        let h1 := if period = some Meridiem.pm && h ≠ 12 then h + 12 else h
        let h2 := if period = some Meridiem.am && h1 = 12 then 0 else h1
        some (jsSetHours tomorrow h2 m 0 0)
      | none => some (jsSetHours tomorrow 9 0 0 0)
    else if listIncludes "next week".data text then
      some (jsSetHours (jsAddDays now 7) 9 0 0 0)
    else none

/-! ## Extraction stage (voice-to-text edge function) -/

/-- Contact info attached to an extracted task candidate. -/
structure ContactInfo where
  name : Option String := none
  phone : Option String := none
  email : Option String := none
deriving DecidableEq

/-- One extracted task candidate of the analysis result
(`extractedTasks` entries of the edge function's response). -/
structure ExtractedTask where
  title : String
  description : String
  priority : String
  actionType : String
  scheduledFor : Option JSDate
  contactInfo : ContactInfo
deriving DecidableEq

/-- The `analysisResult` shape assembled by the voice-to-text function. -/
structure AnalysisResult where
  cleanedText : String
  extractedTasks : List ExtractedTask
  improvements : String
  confidence : String
  potentialErrors : List String
deriving DecidableEq

/-- The initial `analysisResult` set up before the ChatGPT call
(src/unnamed/part_011, lines 803–809). -/
def initialAnalysisResult (rawTranscription : String) : AnalysisResult :=
  { cleanedText := rawTranscription
    extractedTasks := []
    improvements := "No improvements applied"
    confidence := "medium"
    potentialErrors := [] }

/-- JS `s.slice(0, n)`. -/
def jsSlice0 (s : String) (n : Nat) : String := ⟨s.data.take n⟩

/-- Embedding of the ChatGPT parse-failure fallback (the `catch` around
`JSON.parse`, src/unnamed/part_011, lines 843–870): keyword scan of the
lowercased raw transcription, at most one candidate, starting from the
initial `analysisResult` (whose confidence field is left untouched). -/
def chatgptParseFailureFallback (rawTranscription : String) (now : JSDate) : AnalysisResult :=
  let base := initialAnalysisResult rawTranscription
  let text := jsToLower rawTranscription
  if jsIncludes text "remind" || jsIncludes text "call" ||
      jsIncludes text "text" || jsIncludes text "email" then
    let parsedTime := parseTimeExpression text now
    let actionType :=
      if jsIncludes text "remind" then "reminder"
      else if jsIncludes text "call" then "call"
      else if jsIncludes text "text" then "text"
      else "email"
    { base with
      extractedTasks := [{
        title := jsSlice0 rawTranscription 50
        description := rawTranscription
        priority := "medium"
        actionType := actionType
        scheduledFor := parsedTime
        contactInfo := {} }] }
  else base

/-- Embedding of the ChatGPT call-failure fallback (the `else` branch of
`if (chatgptResponse.ok)`, src/unnamed/part_011, lines 871–884): a single
`reminder` candidate is produced only when a time expression resolves. -/
def chatgptCallFailureFallback (rawTranscription : String) (now : JSDate) : AnalysisResult :=
  let base := initialAnalysisResult rawTranscription
  match parseTimeExpression (jsToLower rawTranscription) now with
  | some ts =>
    { base with
      extractedTasks := [{
        title := jsSlice0 rawTranscription 50
        description := rawTranscription
        priority := "medium"
        actionType := "reminder"
        scheduledFor := some ts
        contactInfo := {} }] }
  | none => base

/-- Embedding of the per-candidate `scheduledFor` override in the ChatGPT
success branch (src/unnamed/part_011, lines 817–835): when the parsed
response has candidates, every candidate's `scheduledFor` is replaced by
`parseTimeExpression(rawTranscription)`, discarding whatever the model
proposed. -/
def overrideScheduledFor (rawTranscription : String) (now : JSDate)
    (tasks : List ExtractedTask) : List ExtractedTask :=
  if tasks.length > 0 then
    tasks.map fun task => { task with scheduledFor := parseTimeExpression rawTranscription now }
  else tasks

/-! ## Base64 decoding (`processBase64Chunks`)

`atob` is the platform's forgiving-base64 decoder.  The model below covers
inputs without ASCII whitespace (the audio payloads are JSON base64
strings): up to two trailing `=` are stripped when the length is a
multiple of four, then 6-bit groups are decoded four at a time, a final
leftover of two or three characters contributing one or two bytes (their
low leftover bits discarded), a leftover of one character being an error,
and any character outside the base64 alphabet being an error. -/

/-- Value of one base64 alphabet character. -/
def base64CharVal (c : Char) : Option Nat :=
  if 'A' ≤ c ∧ c ≤ 'Z' then some (c.toNat - 65)
  else if 'a' ≤ c ∧ c ≤ 'z' then some (c.toNat - 97 + 26)
  else if '0' ≤ c ∧ c ≤ '9' then some (c.toNat - 48 + 52)
  else if c = '+' then some 62
  else if c = '/' then some 63
  else none

/-- Strip up to two trailing `=` characters. -/
def dropTrailingEq2 (s : List Char) : List Char :=
  if s.getLast? = some '=' then
    let s1 := s.dropLast
    if s1.getLast? = some '=' then s1.dropLast else s1
  else s

/-- One complete base64 quantum: four 6-bit values, three bytes. -/
def b64Group4 (a b c d : Char) : Option (List Nat) :=
  match base64CharVal a, base64CharVal b, base64CharVal c, base64CharVal d with
  | some va, some vb, some vc, some vd =>
    some [(va * 262144 + vb * 4096 + vc * 64 + vd) / 65536,
          (va * 262144 + vb * 4096 + vc * 64 + vd) / 256 % 256,
          (va * 262144 + vb * 4096 + vc * 64 + vd) % 256]
  | _, _, _, _ => none

/-- A final two-character group: twelve bits, one byte (low four bits
discarded, as forgiving base64 does). -/
def b64Group2 (a b : Char) : Option (List Nat) :=
  match base64CharVal a, base64CharVal b with
  | some va, some vb => some [(va * 64 + vb) / 16]
  | _, _ => none

/-- A final three-character group: eighteen bits, two bytes (low two bits
discarded). -/
def b64Group3 (a b c : Char) : Option (List Nat) :=
  match base64CharVal a, base64CharVal b, base64CharVal c with
  | some va, some vb, some vc =>
    some [(va * 4096 + vb * 64 + vc) / 1024, (va * 4096 + vb * 64 + vc) / 4 % 256]
  | _, _, _ => none

/-- Core base64 decode of a padding-free character list: groups of four
6-bit values yield three bytes, a final pair yields one byte, a final
triple yields two bytes, a single leftover character is an error. -/
def atobCore : List Char → Option (List Nat)
  | [] => some []
  | [_] => none
  | [a, b] => b64Group2 a b
  | [a, b, c] => b64Group3 a b c
  | a :: b :: c :: d :: rest =>
    match b64Group4 a b c d, atobCore rest with
    | some g, some tail => some (g ++ tail)
    | _, _ => none

/-- `atob(s)` (forgiving base64 without whitespace): strip up to two
trailing `=` when the length is a multiple of four, then decode; `none`
models the thrown `InvalidCharacterError`. -/
def atob (s : List Char) : Option (List Nat) :=
  atobCore (if s.length % 4 = 0 then dropTrailingEq2 s else s)

/-- Embedding of `processBase64Chunks(base64String)` (src/unnamed/part_011
lines 30–53, src/unnamed/part_010 lines 11–40; both copies are identical
and every call site uses the default `chunkSize = 32768`): the input is
sliced into consecutive 32768-character chunks, each chunk is decoded
with `atob`, and the decoded chunks are concatenated in input order into
one contiguous buffer. -/
def processBase64Chunks (s : List Char) : Option (List Nat) :=
  if s.isEmpty then some []
  else
    match atob (s.take 32768), processBase64Chunks (s.drop 32768) with
    | some bytes, some rest => some (bytes ++ rest)
    | _, _ => none
termination_by s.length
decreasing_by
  rename_i h
  cases s with
  | nil => simp [List.isEmpty] at h
  | cons a l => simp [List.length_drop]; omega

/-! ## Optimistic task store (`useOptimisticTasks`, src/unnamed/part_006)

`Task.createdAt` is modelled as epoch milliseconds: the source stores an
ISO-8601 string and compares tasks via `new Date(createdAt).getTime()`,
and parsing is strictly monotone from ISO strings to epoch ms. -/

/-- Client-side task shape (`@/types/Task`). -/
structure Task where
  id : String
  title : String
  description : Option String := none
  priority : String := "medium"
  dueDate : Option String := none
  completed : Bool := false
  createdAt : JSDate := 0
  actionType : Option String := none
  scheduledFor : Option JSDate := none
  contactInfo : Option ContactInfo := none
deriving DecidableEq

/-- `Partial<Task>` as used by `updateOptimisticTask` (absent fields are
`none`; the explicitly-`undefined` JS corner is not distinguished). -/
structure TaskUpdates where
  id : Option String := none
  title : Option String := none
  description : Option (Option String) := none
  priority : Option String := none
  dueDate : Option (Option String) := none
  completed : Option Bool := none
  createdAt : Option JSDate := none
  actionType : Option (Option String) := none
  scheduledFor : Option (Option JSDate) := none
  contactInfo : Option (Option ContactInfo) := none
deriving DecidableEq

/-- JS object spread `{ ...t, ...updates }`. -/
def applyUpdates (t : Task) (u : TaskUpdates) : Task :=
  { id := u.id.getD t.id
    title := u.title.getD t.title
    description := u.description.getD t.description
    priority := u.priority.getD t.priority
    dueDate := u.dueDate.getD t.dueDate
    completed := u.completed.getD t.completed
    createdAt := u.createdAt.getD t.createdAt
    actionType := u.actionType.getD t.actionType
    scheduledFor := u.scheduledFor.getD t.scheduledFor
    contactInfo := u.contactInfo.getD t.contactInfo }

/-- Optimistic apply of `addOptimisticTask`:
`setTasks(prev => [optimisticTask, ...prev])` (part_006, line 36). -/
def addOptimisticApply (tasks : List Task) (optimisticTask : Task) : List Task :=
  optimisticTask :: tasks

/-- Rollback of `addOptimisticTask`:
`setTasks(prev => prev.filter(t => t.id !== optimisticId))` (line 39). -/
def addOptimisticRollback (optimisticId : String) (tasks : List Task) : List Task :=
  tasks.filter fun t => t.id ≠ optimisticId

/-- Optimistic apply of `updateOptimisticTask`:
`setTasks(prev => prev.map(t => t.id === taskId ? { ...t, ...updates } : t))`
(lines 93–95). -/
def updateOptimisticApply (tasks : List Task) (taskId : String) (u : TaskUpdates) : List Task :=
  tasks.map fun t => if t.id = taskId then applyUpdates t u else t

/-- Rollback of `updateOptimisticTask`:
`setTasks(prev => prev.map(t => t.id === taskId ? originalTask : t))`
(lines 97–101). -/
def updateOptimisticRollback (tasks : List Task) (taskId : String) (originalTask : Task) :
    List Task :=
  tasks.map fun t => if t.id = taskId then originalTask else t

/-- Optimistic apply of `deleteOptimisticTask`:
`setTasks(prev => prev.filter(t => t.id !== taskId))` (line 146). -/
def deleteOptimisticApply (tasks : List Task) (taskId : String) : List Task :=
  tasks.filter fun t => t.id ≠ taskId

/-- The comparator-sorted order used by the delete rollback:
`(a, b) => new Date(b.createdAt).getTime() - new Date(a.createdAt).getTime()`,
i.e. `a` may stay before `b` iff `b.createdAt ≤ a.createdAt`. -/
def newestFirst (a b : Task) : Prop := b.createdAt ≤ a.createdAt

instance : DecidableRel newestFirst := fun a b => Int.decLe b.createdAt a.createdAt

instance : IsTotal Task newestFirst := ⟨fun a b => Int.le_total b.createdAt a.createdAt⟩

instance : IsTrans Task newestFirst :=
  ⟨fun _ _ _ hab hbc => le_trans hbc hab⟩

/-- JS `Array.prototype.sort` with the descending-`createdAt` comparator.
`Array.sort` is a stable comparator sort, and a stable sort's output is
uniquely determined by the comparator and the input order, so the stable
`List.insertionSort` computes exactly the engine's result. -/
def jsSortNewestFirst (l : List Task) : List Task :=
  l.insertionSort newestFirst

/-- Rollback of `deleteOptimisticTask`:
`setTasks(prev => [...prev, originalTask].sort((a, b) => ...))`
(lines 148–152). -/
def deleteOptimisticRollback (tasks : List Task) (originalTask : Task) : List Task :=
  jsSortNewestFirst (tasks ++ [originalTask])

/-! ## Scheduled actions: persistence guard and the server sweep -/

/-- A `scheduled_actions` row joined with its task columns, as selected by
the process-notifications sweep (the join fields are those the handler
reads through `action.tasks?.`). -/
structure ActionRow where
  id : Nat
  action_type : String
  scheduled_for : JSDate
  web_push : Bool
  status : String
  updated_at : JSDate
  task_title : Option String := none
  task_description : Option String := none
  task_priority : Option String := none
  contact_info : Option ContactInfo := none
deriving DecidableEq

/-- A row inserted into `tasks` by the sweep's web fallback. -/
structure NewTaskRow where
  title : String
  description : String
  priority : String
  completed : Bool
  action_type : String
  contact_info : Option ContactInfo
deriving DecidableEq

/-- Durable-store state seen by the sweep. -/
structure SweepDB where
  actions : List ActionRow
  tasks : List NewTaskRow
deriving DecidableEq

/-- The due-action selection of the sweep (src/unnamed/part_011, lines
1453–1468): `status = 'pending'`, `scheduled_for <= now`, and
`notification_settings->web_push = true`. -/
def selectDueActions (db : SweepDB) (now : JSDate) : List ActionRow :=
  db.actions.filter fun a =>
    a.status = "pending" && decide (a.scheduled_for ≤ now) && a.web_push

/-- JS template stringification of a possibly-undefined joined column. -/
def jsTemplate (s : Option String) : String := s.getD "undefined"

/-- The visible fallback task the sweep inserts for a due `reminder`
(lines 1486–1500). -/
def reminderFallbackTask (a : ActionRow) : NewTaskRow :=
  { title := "🔔 " ++ jsTemplate a.task_title
    description := "Reminder: " ++ jsTemplate a.task_description
    priority := (a.task_priority.getD "medium")
    completed := false
    action_type := "note"
    contact_info := a.contact_info }

/-- `status` update of one handled row (lines 1516–1527), keyed by id. -/
def setActionStatus (actions : List ActionRow) (id : Nat) (st : String) (now : JSDate) :
    List ActionRow :=
  actions.map fun a => if a.id = id then { a with status := st, updated_at := now } else a

/-- One iteration of the sweep's `for` loop over a due action (lines
1480–1535).  In the model durable writes succeed, so `notificationSent`
is `true` on every path (the handler pushes `'web_notification'` and sets
`notificationSent = true` unconditionally before the status update) and
the row is marked `completed`; the processed log records the action id. -/
def processDueAction (st : SweepDB × List Nat) (a : ActionRow) (now : JSDate) :
    SweepDB × List Nat :=
  let db := st.1
  let db1 := if a.action_type = "reminder"
    then { db with tasks := db.tasks ++ [reminderFallbackTask a] } else db
  let db2 := { db1 with actions := setActionStatus db1.actions a.id "completed" now }
  (db2, st.2 ++ [a.id])

/-- Embedding of one run of the process-notifications sweep
(src/unnamed/part_011, lines 1435–1560): select the due pending
web-enabled rows once, then handle each in order. -/
def processNotificationsSweep (db : SweepDB) (now : JSDate) : SweepDB × List Nat :=
  (selectDueActions db now).foldl (fun st a => processDueAction st a now) (db, [])

/-- Durable-store state for candidate persistence. -/
structure PersistDB where
  tasks : List ExtractedTask
  scheduledActions : List (ExtractedTask × JSDate)
deriving DecidableEq

/-- Modelled from the spec: the VoicePipeline persistence of one accepted
candidate (spec §4.4).  The repository snapshot does not contain this
orchestration under `src/` (only the `DatabaseService.createScheduledAction`
primitive it would call, which inserts unconditionally, and UI persist
paths that never create scheduled actions), so the step is modelled from
the spec's words: "create a Task row, and if actionType ≠ note and
scheduledFor is non-null and in the future, additionally create a
ScheduledAction row … A past-due scheduledFor is persisted on the Task but
never produces a ScheduledAction". -/
def persistCandidate (db : PersistDB) (c : ExtractedTask) (now : JSDate) : PersistDB :=
  let db1 := { db with tasks := db.tasks ++ [c] }
  match c.scheduledFor with
  | some ts =>
    if c.actionType ≠ "note" ∧ now < ts then
      { db1 with scheduledActions := db1.scheduledActions ++ [(c, ts)] }
    else db1
  | none => db1

/-! ## `DatabaseService.withRetry` (src/src/services/DatabaseService.ts,
lines 10–34) -/

/-- `APP_CONFIG.MAX_RETRY_ATTEMPTS` (src/unnamed/part_000, line 13). -/
def MAX_RETRY_ATTEMPTS : Nat := 3

/-- Embedding of `withRetry`.  `op k` is the outcome of the `k`-th
invocation of the wrapped operation (an arbitrary behaviour).
`retryCount` is the service's instance field (reset to 0 on success, left
as-is when the budget is exhausted).  The result triple is (new
`retryCount`, number of invocations performed, final outcome).  The
recursion is structural in `maxRetries - retryCount`, which is also the
termination argument for the source's recursion. -/
def withRetry (op : Nat → Except String α) (maxRetries retryCount k : Nat) :
    Nat × Nat × Except String α :=
  match op k with
  | .ok a => (0, 1, .ok a)
  | .error e =>
    if retryCount < maxRetries then
      let r := withRetry op maxRetries (retryCount + 1) (k + 1)
      (r.1, r.2.1 + 1, r.2.2)
    else (retryCount, 1, .error e)
termination_by maxRetries - retryCount
decreasing_by omega

/-! ## Theorems -/

/-- Shared arithmetic fact: adding whole days shifts the floor-day index. -/
theorem fdiv_add_days (t : JSDate) (d : Nat) :
    (t + d * msPerDay).fdiv msPerDay = t.fdiv msPerDay + d := by
  have hpos : (0:ℤ) ≤ msPerDay := by norm_num [msPerDay]
  have hne : (msPerDay : ℤ) ≠ 0 := by norm_num [msPerDay]
  rw [Int.fdiv_eq_ediv _ hpos, Int.fdiv_eq_ediv _ hpos, Int.add_mul_ediv_right _ _ hne]

/-- Closed form of the `tomorrow`/`next week` date computation. -/
theorem jsSetHours_jsAddDays (t : JSDate) (d h m : Nat) :
    jsSetHours (jsAddDays t d) h m 0 0
      = msPerDay * (t.fdiv msPerDay + d) + (h * msPerHour + m * msPerMinute) := by
  unfold jsSetHours jsAddDays
  rw [fdiv_add_days]
  ring

/-- C1 (amended): for every reference instant `t` and every `N` from 1 to
20 written as a digit sequence, `resolve("in N minutes", t) = t + N min`
(analogously hours and days).  Spelled-out cardinals resolve to their own
value for minutes only on one…thirteen, fifteen and twenty (fourteen,
sixteen, seventeen, eighteen, nineteen are preempted by their embedded
substrings four/six/seven/eight/nine), for hours on one…twelve, and for
days only on one…seven; eight…twelve spelled-out days are unrecognized. -/
theorem c1_relative_durations (t : JSDate) (n : Nat) (h1 : 1 ≤ n) (h2 : n ≤ 20) :
    parseTimeExpression ("in " ++ toString n ++ " minutes") t = some (t + n * 60 * 1000)
    ∧ parseTimeExpression ("in " ++ toString n ++ " hours") t = some (t + n * 60 * 60 * 1000)
    ∧ parseTimeExpression ("in " ++ toString n ++ " days") t
        = some (t + n * 24 * 60 * 60 * 1000)
    ∧ (∀ p ∈ spelledMinutesExact,
        parseTimeExpression ("in " ++ p.1 ++ " minutes") t = some (t + p.2 * 60 * 1000))
    ∧ (∀ p ∈ numberWords12,
        parseTimeExpression ("in " ++ p.1 ++ " hours") t = some (t + p.2 * 60 * 60 * 1000))
    ∧ (∀ p ∈ numberWords7,
        parseTimeExpression ("in " ++ p.1 ++ " days") t = some (t + p.2 * 24 * 60 * 60 * 1000))
    ∧ parseTimeExpression "in fourteen minutes" t = some (t + 4 * 60 * 1000)
    ∧ parseTimeExpression "in sixteen minutes" t = some (t + 6 * 60 * 1000)
    ∧ parseTimeExpression "in seventeen minutes" t = some (t + 7 * 60 * 1000)
    ∧ parseTimeExpression "in eighteen minutes" t = some (t + 8 * 60 * 1000)
    ∧ parseTimeExpression "in nineteen minutes" t = some (t + 9 * 60 * 1000)
    ∧ (∀ w ∈ ["eight", "nine", "ten", "eleven", "twelve"],
        parseTimeExpression ("in " ++ w ++ " days") t = none) := by
  refine ⟨?_, ?_, ?_, ?_, ?_, ?_, rfl, rfl, rfl, rfl, rfl, ?_⟩
  · interval_cases n <;> rfl
  · interval_cases n <;> rfl
  · interval_cases n <;> rfl
  · intro p hp
    simp only [spelledMinutesExact, List.mem_cons, List.not_mem_nil, or_false] at hp
    rcases hp with rfl | rfl | rfl | rfl | rfl | rfl | rfl | rfl | rfl | rfl | rfl | rfl |
      rfl | rfl | rfl <;> rfl
  · intro p hp
    simp only [numberWords12, List.mem_cons, List.not_mem_nil, or_false] at hp
    rcases hp with rfl | rfl | rfl | rfl | rfl | rfl | rfl | rfl | rfl | rfl | rfl | rfl <;> rfl
  · intro p hp
    simp only [numberWords7, List.mem_cons, List.not_mem_nil, or_false] at hp
    rcases hp with rfl | rfl | rfl | rfl | rfl | rfl | rfl <;> rfl
  · intro w hw
    simp only [List.mem_cons, List.not_mem_nil, or_false] at hw
    rcases hw with rfl | rfl | rfl | rfl | rfl <;> rfl

/-- C1 witness: the amended theorem applied at `t = 0`, `N = 5`, both as
digits and spelled out. -/
theorem c1_relative_durations_witness :
    (1 ≤ 5 ∧ 5 ≤ 20)
    ∧ parseTimeExpression "in 5 minutes" 0 = some (0 + (5 : Nat) * 60 * 1000)
    ∧ parseTimeExpression "in five minutes" 0 = some (0 + (5 : Nat) * 60 * 1000) := by
  refine ⟨⟨by norm_num, by norm_num⟩, ?_, ?_⟩
  · exact (c1_relative_durations 0 5 (by norm_num) (by norm_num)).1
  · exact (c1_relative_durations 0 5 (by norm_num) (by norm_num)).2.2.2.1 ("five", 5)
      (by simp [spelledMinutesExact])

/-- C1 counterexample: at `t = 0`, `"in fourteen minutes"` resolves to
`t + 4` minutes, not the claimed `t + 14` minutes (the whole-text word
scan finds `"four"` first). -/
theorem c1_counterexample :
    parseTimeExpression "in fourteen minutes" 0 = some (4 * 60 * 1000)
    ∧ ¬ parseTimeExpression "in fourteen minutes" 0 = some (0 + 14 * 60 * 1000) := by
  exact ⟨rfl, by decide⟩

/-- C7: for every reference instant `t`, `resolve("tomorrow at 3pm", t)`
is exactly one calendar day after `t`'s date at 15:00:00 regardless of
`t`'s own time of day; the am/pm normalisation keeps `12pm` at 12 and
sends `12am` to 0 and `7am` to 7; and `resolve("tomorrow", t)` with no
explicit time is the next day at 09:00. -/
theorem c7_tomorrow_resolution (t : JSDate) :
    parseTimeExpression "tomorrow at 3pm" t
      = some (msPerDay * (t.fdiv msPerDay + 1) + 15 * msPerHour)
    ∧ parseTimeExpression "tomorrow" t
      = some (msPerDay * (t.fdiv msPerDay + 1) + 9 * msPerHour)
    ∧ parseTimeExpression "tomorrow at 7am" t
      = some (msPerDay * (t.fdiv msPerDay + 1) + 7 * msPerHour)
    ∧ parseTimeExpression "tomorrow at 12pm" t
      = some (msPerDay * (t.fdiv msPerDay + 1) + 12 * msPerHour)
    ∧ parseTimeExpression "tomorrow at 12am" t
      = some (msPerDay * (t.fdiv msPerDay + 1)) := by
  refine ⟨?_, ?_, ?_, ?_, ?_⟩
  · show some (jsSetHours (jsAddDays t 1) 15 0 0 0) = _
    rw [jsSetHours_jsAddDays]; norm_num [msPerHour, msPerMinute]
  · show some (jsSetHours (jsAddDays t 1) 9 0 0 0) = _
    rw [jsSetHours_jsAddDays]; norm_num [msPerHour, msPerMinute]
  · show some (jsSetHours (jsAddDays t 1) 7 0 0 0) = _
    rw [jsSetHours_jsAddDays]; norm_num [msPerHour, msPerMinute]
  · show some (jsSetHours (jsAddDays t 1) 12 0 0 0) = _
    rw [jsSetHours_jsAddDays]; norm_num [msPerHour, msPerMinute]
  · show some (jsSetHours (jsAddDays t 1) 0 0 0 0) = _
    rw [jsSetHours_jsAddDays]; norm_num [msPerHour, msPerMinute]

/-- C9: a zero-count relative duration is rejected by every duration
branch (each requires a strictly positive count), and with no other
recognized expression present the resolver returns `null`, not the
reference instant. -/
theorem c9_zero_count_durations (t : JSDate) :
    parseTimeExpression "in 0 minutes" t = none
    ∧ parseTimeExpression "in 0 hours" t = none
    ∧ parseTimeExpression "in 0 days" t = none :=
  ⟨rfl, rfl, rfl⟩

/-- C2 counterexample: for the transcript `"remind me to pay rent"`
(which contains `"remind"` and no time expression), the parse-failure
fallback leaves the result's confidence at `"medium"`, not `"low"`, and
records no potentialError entry; and the call-failure fallback produces
no candidate at all. -/
theorem c2_counterexample :
    (chatgptParseFailureFallback "remind me to pay rent" 0).confidence = "medium"
    ∧ (chatgptParseFailureFallback "remind me to pay rent" 0).confidence ≠ "low"
    ∧ (chatgptParseFailureFallback "remind me to pay rent" 0).potentialErrors = []
    ∧ ((chatgptParseFailureFallback "remind me to pay rent" 0).extractedTasks.map
        ExtractedTask.actionType) = ["reminder"]
    ∧ (chatgptCallFailureFallback "remind me to pay rent" 0).extractedTasks = [] :=
  ⟨rfl, by decide, rfl, rfl, rfl⟩

/-- C2 (amended): when the model call succeeds but returns non-conforming
JSON, the keyword fallback turns a transcript containing `"remind"` into
exactly one candidate with actionType `"reminder"` and title the first 50
characters of the transcript — but the result's confidence stays at the
initialized `"medium"` (it is not forced to `"low"`) and no potentialError
entry is recorded; when the model call itself fails, the confidence also
stays `"medium"` and the single `"reminder"` candidate is produced only
when a time expression resolves from the transcript, otherwise no
candidate is produced. -/
theorem c2_fallback_behaviour (rawTranscription : String) (now : JSDate)
    (h : jsIncludes (jsToLower rawTranscription) "remind" = true) :
    (chatgptParseFailureFallback rawTranscription now).extractedTasks
      = [{ title := jsSlice0 rawTranscription 50
           description := rawTranscription
           priority := "medium"
           actionType := "reminder"
           scheduledFor := parseTimeExpression (jsToLower rawTranscription) now
           contactInfo := {} }]
    ∧ (chatgptParseFailureFallback rawTranscription now).confidence = "medium"
    ∧ (chatgptParseFailureFallback rawTranscription now).potentialErrors = []
    ∧ (chatgptCallFailureFallback rawTranscription now).confidence = "medium"
    ∧ (parseTimeExpression (jsToLower rawTranscription) now = none →
        (chatgptCallFailureFallback rawTranscription now).extractedTasks = [])
    ∧ (∀ ts, parseTimeExpression (jsToLower rawTranscription) now = some ts →
        (chatgptCallFailureFallback rawTranscription now).extractedTasks
          = [{ title := jsSlice0 rawTranscription 50
               description := rawTranscription
               priority := "medium"
               actionType := "reminder"
               scheduledFor := some ts
               contactInfo := {} }]) := by
  refine ⟨?_, ?_, ?_, ?_, ?_, ?_⟩
  · simp [chatgptParseFailureFallback, h]
  · simp [chatgptParseFailureFallback, h, initialAnalysisResult]
  · simp [chatgptParseFailureFallback, h, initialAnalysisResult]
  · cases hp : parseTimeExpression (jsToLower rawTranscription) now <;>
      simp [chatgptCallFailureFallback, hp, initialAnalysisResult]
  · intro hp; simp [chatgptCallFailureFallback, hp, initialAnalysisResult]
  · intro ts hp; simp [chatgptCallFailureFallback, hp]

/-- C2 witness: the amended theorem applied to the concrete transcript
`"remind me to pay rent"` at `now = 0`. -/
theorem c2_fallback_behaviour_witness :
    jsIncludes (jsToLower "remind me to pay rent") "remind" = true
    ∧ (chatgptParseFailureFallback "remind me to pay rent" 0).confidence = "medium" :=
  ⟨by decide, (c2_fallback_behaviour "remind me to pay rent" 0 (by decide)).2.1⟩

/-- C6: every candidate in a successfully parsed model response leaves the
override step with `scheduledFor` equal to the resolver applied to the
original raw transcription — the value the model proposed is discarded,
all other fields are kept. -/
theorem c6_override_scheduledFor (rawTranscription : String) (now : JSDate)
    (tasks : List ExtractedTask) (c : ExtractedTask)
    (hc : c ∈ overrideScheduledFor rawTranscription now tasks) :
    c.scheduledFor = parseTimeExpression rawTranscription now
    ∧ ∃ c₀ ∈ tasks, c = { c₀ with scheduledFor := parseTimeExpression rawTranscription now } := by
  unfold overrideScheduledFor at hc
  by_cases hlen : tasks.length > 0
  · simp only [if_pos hlen, List.mem_map] at hc
    obtain ⟨c₀, hc₀, rfl⟩ := hc
    exact ⟨rfl, c₀, hc₀, rfl⟩
  · simp only [if_neg hlen] at hc
    simp [List.length_eq_zero.mp (Nat.eq_zero_of_not_pos hlen)] at hc

/-- C6 witness: a concrete candidate whose model-proposed `scheduledFor`
(`999`) is overwritten by the resolver's value for `"in 5 minutes"`. -/
theorem c6_override_scheduledFor_witness :
    ({ title := "t", description := "d", priority := "medium", actionType := "reminder",
       scheduledFor := some (5 * 60 * 1000), contactInfo := {} } : ExtractedTask)
      ∈ overrideScheduledFor "in 5 minutes" 0
        [{ title := "t", description := "d", priority := "medium", actionType := "reminder",
           scheduledFor := some 999, contactInfo := {} }]
    ∧ ({ title := "t", description := "d", priority := "medium", actionType := "reminder",
         scheduledFor := some (5 * 60 * 1000), contactInfo := {} } : ExtractedTask).scheduledFor
        = parseTimeExpression "in 5 minutes" 0 :=
  ⟨by decide, (c6_override_scheduledFor "in 5 minutes" 0
      [{ title := "t", description := "d", priority := "medium", actionType := "reminder",
         scheduledFor := some 999, contactInfo := {} }]
      { title := "t", description := "d", priority := "medium", actionType := "reminder",
        scheduledFor := some (5 * 60 * 1000), contactInfo := {} } (by decide)).1⟩

/-- C3: a persisted candidate whose resolved `scheduledFor` lies in the
past relative to creation time creates its Task row (the timestamp is
persisted there) but never a ScheduledAction row. -/
theorem c3_no_backdated_scheduled_action (db : PersistDB) (c : ExtractedTask)
    (now ts : JSDate) (hs : c.scheduledFor = some ts) (hpast : ts < now) :
    (persistCandidate db c now).scheduledActions = db.scheduledActions
    ∧ (persistCandidate db c now).tasks = db.tasks ++ [c] := by
  have hng : ¬(c.actionType ≠ "note" ∧ now < ts) := by
    rintro ⟨-, hlt⟩; exact lt_asymm hpast hlt
  unfold persistCandidate
  rw [hs]
  simp [hng]

/-- C3 witness: a concrete overdue reminder candidate (due at `-5`,
persisted at time `0`) creates no ScheduledAction row. -/
theorem c3_no_backdated_scheduled_action_witness :
    ({ title := "t", description := "d", priority := "medium", actionType := "reminder",
       scheduledFor := some (-5), contactInfo := {} } : ExtractedTask).scheduledFor = some (-5)
    ∧ (-5 : Int) < 0
    ∧ (persistCandidate { tasks := [], scheduledActions := [] }
        { title := "t", description := "d", priority := "medium", actionType := "reminder",
          scheduledFor := some (-5), contactInfo := {} } 0).scheduledActions = [] :=
  ⟨rfl, by norm_num,
    (c3_no_backdated_scheduled_action { tasks := [], scheduledActions := [] }
      { title := "t", description := "d", priority := "medium", actionType := "reminder",
        scheduledFor := some (-5), contactInfo := {} } 0 (-5) rfl (by norm_num)).1⟩

/-- Step equation: successful invocation. -/
theorem withRetry_ok (op : Nat → Except String α) (maxRetries retryCount k : Nat) (a : α)
    (h : op k = .ok a) : withRetry op maxRetries retryCount k = (0, 1, .ok a) := by
  rw [withRetry.eq_def, h]

/-- Step equation: failed invocation with retry budget left. -/
theorem withRetry_error_retry (op : Nat → Except String α) (maxRetries retryCount k : Nat)
    (e : String) (h : op k = .error e) (hlt : retryCount < maxRetries) :
    withRetry op maxRetries retryCount k =
      ((withRetry op maxRetries (retryCount + 1) (k + 1)).1,
       (withRetry op maxRetries (retryCount + 1) (k + 1)).2.1 + 1,
       (withRetry op maxRetries (retryCount + 1) (k + 1)).2.2) := by
  rw [withRetry.eq_def, h]
  simp [hlt]

/-- Step equation: failed invocation with the budget exhausted. -/
theorem withRetry_error_exhausted (op : Nat → Except String α) (maxRetries retryCount k : Nat)
    (e : String) (h : op k = .error e) (hge : ¬ retryCount < maxRetries) :
    withRetry op maxRetries retryCount k = (retryCount, 1, .error e) := by
  rw [withRetry.eq_def, h]
  simp [hge]

/-- The invocation count of `withRetry` is bounded by the remaining
budget plus one. -/
theorem withRetry_invocations_le (op : Nat → Except String α) (maxRetries : Nat) :
    ∀ d retryCount k, maxRetries - retryCount ≤ d →
      (withRetry op maxRetries retryCount k).2.1 ≤ maxRetries - retryCount + 1 := by
  intro d
  induction d with
  | zero =>
    intro rc k hd
    cases hop : op k with
    | ok a =>
      rw [withRetry_ok op _ _ _ _ hop]
      show 1 ≤ maxRetries - rc + 1
      omega
    | error e =>
      have hge : ¬ rc < maxRetries := by omega
      rw [withRetry_error_exhausted op _ _ _ _ hop hge]
      show 1 ≤ maxRetries - rc + 1
      omega
  | succ d ih =>
    intro rc k hd
    cases hop : op k with
    | ok a =>
      rw [withRetry_ok op _ _ _ _ hop]
      show 1 ≤ maxRetries - rc + 1
      omega
    | error e =>
      by_cases hlt : rc < maxRetries
      · rw [withRetry_error_retry op _ _ _ _ hop hlt]
        have := ih (rc + 1) (k + 1) (by omega)
        show (withRetry op maxRetries (rc + 1) (k + 1)).2.1 + 1 ≤ maxRetries - rc + 1
        omega
      · rw [withRetry_error_exhausted op _ _ _ _ hop hlt]
        show 1 ≤ maxRetries - rc + 1
        omega

/-- `withRetry` returns the first successful invocation's result. -/
theorem withRetry_first_success (op : Nat → Except String α) (maxRetries : Nat) :
    ∀ i retryCount k a, i ≤ maxRetries - retryCount →
      (∀ j < i, ∃ e, op (k + j) = .error e) → op (k + i) = .ok a →
      (withRetry op maxRetries retryCount k).2.2 = .ok a := by
  intro i
  induction i with
  | zero =>
    intro rc k a _ _ hok
    rw [Nat.add_zero] at hok
    rw [withRetry_ok op _ _ _ _ hok]
  | succ i ih =>
    intro rc k a hle herr hok
    obtain ⟨e, he⟩ := herr 0 (Nat.succ_pos i)
    rw [Nat.add_zero] at he
    have hlt : rc < maxRetries := by omega
    rw [withRetry_error_retry op _ _ _ _ he hlt]
    have herr' : ∀ j < i, ∃ e, op (k + 1 + j) = .error e := by
      intro j hj
      obtain ⟨e', he'⟩ := herr (j + 1) (by omega)
      exact ⟨e', by rw [← he']; ring_nf⟩
    have hok' : op (k + 1 + i) = .ok a := by rw [← hok]; ring_nf
    exact ih (rc + 1) (k + 1) a (by omega) herr' hok'

/-- When every invocation in the budget fails, `withRetry` rethrows the
outcome of the final invocation. -/
theorem withRetry_exhaust (op : Nat → Except String α) (maxRetries : Nat) :
    ∀ d retryCount k, maxRetries - retryCount = d →
      (∀ j ≤ d, ∃ e, op (k + j) = .error e) →
      (withRetry op maxRetries retryCount k).2.2 = op (k + d) := by
  intro d
  induction d with
  | zero =>
    intro rc k hd herr
    obtain ⟨e, he⟩ := herr 0 (le_refl 0)
    rw [Nat.add_zero] at he
    have hge : ¬ rc < maxRetries := by omega
    rw [withRetry_error_exhausted op _ _ _ _ he hge, Nat.add_zero, he]
  | succ d ih =>
    intro rc k hd herr
    obtain ⟨e, he⟩ := herr 0 (Nat.zero_le _)
    rw [Nat.add_zero] at he
    have hlt : rc < maxRetries := by omega
    rw [withRetry_error_retry op _ _ _ _ he hlt]
    have herr' : ∀ j ≤ d, ∃ e, op (k + 1 + j) = .error e := by
      intro j hj
      obtain ⟨e', he'⟩ := herr (j + 1) (by omega)
      exact ⟨e', by rw [← he']; ring_nf⟩
    have := ih (rc + 1) (k + 1) (by omega) herr'
    show (withRetry op maxRetries (rc + 1) (k + 1)).2.2 = op (k + (d + 1))
    rw [this]
    congr 1
    omega

/-- C10: `withRetry` terminates (it is a total function of the remaining
budget): starting from any instance `retryCount` it invokes the wrapped
operation at most `1 + MAX_RETRY_ATTEMPTS = 4` times, returns the first
successful result inside the budget, and rethrows the final error once
the retry budget is exhausted. -/
theorem c10_withRetry_bounded (op : Nat → Except String α) (retryCount k : Nat) :
    (withRetry op MAX_RETRY_ATTEMPTS retryCount k).2.1 ≤ 1 + MAX_RETRY_ATTEMPTS
    ∧ (∀ i a, i ≤ MAX_RETRY_ATTEMPTS - retryCount →
        (∀ j < i, ∃ e, op (k + j) = .error e) → op (k + i) = .ok a →
        (withRetry op MAX_RETRY_ATTEMPTS retryCount k).2.2 = .ok a)
    ∧ ((∀ j ≤ MAX_RETRY_ATTEMPTS - retryCount, ∃ e, op (k + j) = .error e) →
        (withRetry op MAX_RETRY_ATTEMPTS retryCount k).2.2
          = op (k + (MAX_RETRY_ATTEMPTS - retryCount))) := by
  refine ⟨?_, ?_, ?_⟩
  · have := withRetry_invocations_le op MAX_RETRY_ATTEMPTS MAX_RETRY_ATTEMPTS retryCount k
      (by omega)
    omega
  · intro i a hle herr hok
    exact withRetry_first_success op MAX_RETRY_ATTEMPTS i retryCount k a hle herr hok
  · intro herr
    exact withRetry_exhaust op MAX_RETRY_ATTEMPTS (MAX_RETRY_ATTEMPTS - retryCount)
      retryCount k rfl herr

/-- C10 witness: an operation that always fails is invoked and the final
error is rethrown; an operation that succeeds immediately returns its
value. -/
theorem c10_withRetry_bounded_witness :
    (withRetry (fun _ => (Except.error "boom" : Except String Nat))
        MAX_RETRY_ATTEMPTS 0 0).2.1 ≤ 1 + MAX_RETRY_ATTEMPTS
    ∧ (withRetry (fun _ => (Except.error "boom" : Except String Nat))
        MAX_RETRY_ATTEMPTS 0 0).2.2 = .error "boom"
    ∧ (withRetry (fun _ => (Except.ok 7 : Except String Nat))
        MAX_RETRY_ATTEMPTS 0 0).2.2 = .ok 7 := by
  refine ⟨(c10_withRetry_bounded (fun _ => (Except.error "boom" : Except String Nat)) 0 0).1,
    ?_, ?_⟩
  · have h := (c10_withRetry_bounded (fun _ => (Except.error "boom" : Except String Nat)) 0 0).2.2
      (fun j _ => ⟨"boom", rfl⟩)
    simpa using h
  · have h := (c10_withRetry_bounded (fun _ => (Except.ok 7 : Except String Nat)) 0 0).2.1
      0 7 (by omega) (fun j hj => absurd hj (Nat.not_lt_zero j)) rfl
    simpa using h

/-- Tasks whose id differs from `taskId` pass through both the update
apply and the update rollback unchanged. -/
theorem update_map_untouched (l : List Task) (taskId : String) (f : Task → Task)
    (h : ∀ x ∈ l, x.id ≠ taskId) :
    (l.map fun t => if t.id = taskId then f t else t) = l := by
  induction l with
  | nil => rfl
  | cons t rest ih =>
    have ht : t.id ≠ taskId := h t (List.mem_cons_self t rest)
    simp only [List.map_cons, if_neg ht]
    rw [ih fun x hx => h x (List.mem_cons_of_mem t hx)]

/-- Update-then-rollback restores the exact original list when ids are
unique, the original task is the one found by id, and the update does not
rewrite the id itself. -/
theorem update_rollback_restores (tasks : List Task) (taskId : String) (u : TaskUpdates)
    (orig : Task) (hnd : (tasks.map Task.id).Nodup)
    (hfind : tasks.find? (fun t => t.id = taskId) = some orig) (hid : u.id = none) :
    updateOptimisticRollback (updateOptimisticApply tasks taskId u) taskId orig = tasks := by
  induction tasks with
  | nil => simp at hfind
  | cons t rest ih =>
    by_cases ht : t.id = taskId
    · have horig : orig = t := by
        rw [List.find?_cons_of_pos _ (by simpa using ht)] at hfind
        exact (Option.some_inj.mp hfind).symm
      have hrest : ∀ x ∈ rest, x.id ≠ taskId := by
        intro x hx hxid
        simp only [List.map_cons, List.nodup_cons] at hnd
        exact hnd.1 (ht ▸ hxid ▸ List.mem_map_of_mem Task.id hx)
      unfold updateOptimisticApply updateOptimisticRollback
      have happ : (applyUpdates t u).id = t.id := by
        simp [applyUpdates, hid]
      simp only [List.map_cons, if_pos ht, if_pos (happ.trans ht), horig]
      rw [update_map_untouched _ _ _ hrest, update_map_untouched _ _ _ hrest]
    · rw [List.find?_cons_of_neg _ (by simpa using ht)] at hfind
      have hnd' : (rest.map Task.id).Nodup := by
        simp only [List.map_cons, List.nodup_cons] at hnd
        exact hnd.2
      have := ih hnd' hfind
      unfold updateOptimisticApply updateOptimisticRollback at this ⊢
      simp only [List.map_cons, if_neg ht]
      rw [this]

/-- Delete-apply removes exactly the found task (unique ids): the
remaining list plus the removed task is a permutation of the original. -/
theorem delete_apply_perm (tasks : List Task) (taskId : String) (orig : Task)
    (hnd : (tasks.map Task.id).Nodup)
    (hfind : tasks.find? (fun t => t.id = taskId) = some orig) :
    (deleteOptimisticApply tasks taskId ++ [orig]).Perm tasks := by
  induction tasks with
  | nil => simp at hfind
  | cons t rest ih =>
    by_cases ht : t.id = taskId
    · have horig : orig = t := by
        rw [List.find?_cons_of_pos _ (by simpa using ht)] at hfind
        exact (Option.some_inj.mp hfind).symm
      have hrest : ∀ x ∈ rest, x.id ≠ taskId := by
        intro x hx hxid
        simp only [List.map_cons, List.nodup_cons] at hnd
        exact hnd.1 (ht ▸ hxid ▸ List.mem_map_of_mem Task.id hx)
      unfold deleteOptimisticApply
      rw [List.filter_cons_of_neg (by simpa using ht)]
      have hfilter : rest.filter (fun t => t.id ≠ taskId) = rest :=
        List.filter_eq_self.mpr fun x hx => by simpa using hrest x hx
      rw [hfilter, horig]
      exact List.perm_append_singleton t rest
    · rw [List.find?_cons_of_neg _ (by simpa using ht)] at hfind
      have hnd' : (rest.map Task.id).Nodup := by
        simp only [List.map_cons, List.nodup_cons] at hnd
        exact hnd.2
      unfold deleteOptimisticApply at ih ⊢
      rw [List.filter_cons_of_pos (by simpa using ht)]
      exact List.Perm.cons t (ih hnd' hfind)

/-- C4: rollbacks of the optimistic task store.  Create-then-fail filters
the freshly inserted optimistic id back out, restoring the exact prior
list; update-then-fail maps the found original task back over the
updated id, restoring the exact prior field values (ids are unique and
the update payload does not rewrite ids); delete-then-fail re-appends the
removed task and re-sorts with the stable descending-`createdAt`
comparator, yielding exactly the prior tasks ordered newest-first. -/
theorem c4_optimistic_rollbacks (tasks : List Task) (optTask orig : Task)
    (taskId : String) (u : TaskUpdates)
    (hfresh : ∀ t ∈ tasks, t.id ≠ optTask.id)
    (hnd : (tasks.map Task.id).Nodup)
    (hfind : tasks.find? (fun t => t.id = taskId) = some orig)
    (hid : u.id = none) :
    addOptimisticRollback optTask.id (addOptimisticApply tasks optTask) = tasks
    ∧ updateOptimisticRollback (updateOptimisticApply tasks taskId u) taskId orig = tasks
    ∧ (deleteOptimisticRollback (deleteOptimisticApply tasks taskId) orig).Perm tasks
    ∧ List.Sorted newestFirst (deleteOptimisticRollback (deleteOptimisticApply tasks taskId) orig)
  := by
  refine ⟨?_, update_rollback_restores tasks taskId u orig hnd hfind hid, ?_, ?_⟩
  · unfold addOptimisticRollback addOptimisticApply
    rw [List.filter_cons_of_neg (by simp)]
    exact List.filter_eq_self.mpr fun x hx => by simpa using hfresh x hx
  · unfold deleteOptimisticRollback jsSortNewestFirst
    exact (List.perm_insertionSort newestFirst _).trans
      (delete_apply_perm tasks taskId orig hnd hfind)
  · exact List.sorted_insertionSort newestFirst _

/-- C4 witness: a two-task store (ids `"a"`, `"b"`, created at 2 and 1)
survives all three failed-mutation rollbacks. -/
theorem c4_optimistic_rollbacks_witness :
    (∀ t ∈ [({ id := "a", title := "A", createdAt := 2 } : Task),
            { id := "b", title := "B", createdAt := 1 }], t.id ≠ "c")
    ∧ addOptimisticRollback "c"
        (addOptimisticApply
          [({ id := "a", title := "A", createdAt := 2 } : Task),
           { id := "b", title := "B", createdAt := 1 }]
          { id := "c", title := "C", createdAt := 3 })
        = [({ id := "a", title := "A", createdAt := 2 } : Task),
           { id := "b", title := "B", createdAt := 1 }]
    ∧ updateOptimisticRollback
        (updateOptimisticApply
          [({ id := "a", title := "A", createdAt := 2 } : Task),
           { id := "b", title := "B", createdAt := 1 }]
          "a" { title := some "A2" })
        "a" { id := "a", title := "A", createdAt := 2 }
        = [({ id := "a", title := "A", createdAt := 2 } : Task),
           { id := "b", title := "B", createdAt := 1 }] := by
  have h := c4_optimistic_rollbacks
    [({ id := "a", title := "A", createdAt := 2 } : Task),
     { id := "b", title := "B", createdAt := 1 }]
    { id := "c", title := "C", createdAt := 3 }
    { id := "a", title := "A", createdAt := 2 }
    "a" { title := some "A2" }
    (by decide) (by decide) (by decide) rfl
  exact ⟨by decide, h.1, h.2.1⟩

/-- Rows of the store after a sweep fold originate from rows of the
starting store with the same id, with their status either untouched or
set to `"completed"`. -/
theorem sweep_fold_origin (now : JSDate) (l : List ActionRow) :
    ∀ (st : SweepDB × List Nat) (row : ActionRow),
      row ∈ (l.foldl (fun s a => processDueAction s a now) st).1.actions →
      ∃ orig ∈ st.1.actions,
        row.id = orig.id ∧ (row.status = orig.status ∨ row.status = "completed") := by
  induction l with
  | nil => exact fun st row hrow => ⟨row, hrow, rfl, Or.inl rfl⟩
  | cons a l ih =>
    intro st row hrow
    obtain ⟨mid, hmid, hmidid, hmidst⟩ := ih (processDueAction st a now) row hrow
    have hmid' : mid ∈ setActionStatus st.1.actions a.id "completed" now := by
      simpa [processDueAction, apply_ite SweepDB.actions] using hmid
    obtain ⟨orig, horig, heq⟩ := List.mem_map.mp hmid'
    by_cases horigid : orig.id = a.id
    · refine ⟨orig, horig, ?_, Or.inr ?_⟩
      · rw [hmidid, ← heq]; simp [horigid]
      · rcases hmidst with h | h
        · rw [h, ← heq]; simp [horigid]
        · exact h
    · refine ⟨orig, horig, ?_, ?_⟩
      · rw [hmidid, ← heq]; simp [horigid]
      · rcases hmidst with h | h
        · exact Or.inl (by rw [h, ← heq]; simp [horigid])
        · exact Or.inr h

/-- A row still pending after the sweep fold was pending in the starting
store and was not among the processed actions. -/
theorem sweep_fold_pending (now : JSDate) (l : List ActionRow) :
    ∀ (st : SweepDB × List Nat) (row : ActionRow),
      row ∈ (l.foldl (fun s a => processDueAction s a now) st).1.actions →
      row.status = "pending" →
      row ∈ st.1.actions ∧ ∀ a ∈ l, a.id ≠ row.id := by
  induction l with
  | nil => exact fun st row hrow _ => ⟨hrow, by simp⟩
  | cons a l ih =>
    intro st row hrow hpend
    obtain ⟨hmem, hrest⟩ := ih (processDueAction st a now) row hrow hpend
    have hmem' : row ∈ setActionStatus st.1.actions a.id "completed" now := by
      simpa [processDueAction, apply_ite SweepDB.actions] using hmem
    obtain ⟨orig, horig, heq⟩ := List.mem_map.mp hmem'
    by_cases horigid : orig.id = a.id
    · exfalso
      rw [if_pos horigid] at heq
      rw [← heq] at hpend
      simp at hpend
    · rw [if_neg horigid] at heq
      subst heq
      refine ⟨horig, ?_⟩
      intro b hb
      rcases List.mem_cons.mp hb with rfl | hb'
      · exact fun hba => horigid hba.symm
      · exact hrest b hb'

/-- Every row with the id of a processed due action is `"completed"`
after the sweep fold. -/
theorem sweep_fold_completes (now : JSDate) (l : List ActionRow) :
    ∀ (st : SweepDB × List Nat) (a : ActionRow), a ∈ l →
      ∀ row ∈ (l.foldl (fun s a => processDueAction s a now) st).1.actions,
        row.id = a.id → row.status = "completed" := by
  induction l with
  | nil => intro st a ha; simp at ha
  | cons b l ih =>
    intro st a ha row hrow hid
    rcases List.mem_cons.mp ha with rfl | ha'
    · obtain ⟨orig, horig, horigid, horigst⟩ := sweep_fold_origin now l _ row hrow
      have horig' : orig ∈ setActionStatus st.1.actions a.id "completed" now := by
        simpa [processDueAction, apply_ite SweepDB.actions] using horig
      obtain ⟨src, hsrc, heq⟩ := List.mem_map.mp horig'
      by_cases hsrcid : src.id = a.id
      · rcases horigst with h | h
        · rw [h, ← heq]; simp [hsrcid]
        · exact h
      · exfalso
        rw [if_neg hsrcid] at heq
        rw [← heq] at horigid
        exact hsrcid (by rw [← horigid, hid])
    · exact ih (processDueAction st b now) a ha' row hrow hid

/-- C5: one sweep selects exactly the pending, due, web-enabled rows;
every selected row's id is `"completed"` in the resulting store (in this
model durable writes succeed, and the handler sets `notificationSent`
unconditionally before the status update, so no row is marked
`"failed"`); hence an immediately repeated sweep selects nothing and
processes nothing — each due action is processed at most once. -/
theorem c5_sweep_idempotent (db : SweepDB) (now : JSDate) :
    (∀ a ∈ selectDueActions db now,
      a.status = "pending" ∧ a.scheduled_for ≤ now ∧ a.web_push = true)
    ∧ (∀ a ∈ selectDueActions db now,
        ∀ row ∈ (processNotificationsSweep db now).1.actions,
          row.id = a.id → row.status = "completed")
    ∧ selectDueActions (processNotificationsSweep db now).1 now = []
    ∧ (processNotificationsSweep (processNotificationsSweep db now).1 now).2 = [] := by
  have hsel : ∀ a ∈ selectDueActions db now,
      a.status = "pending" ∧ a.scheduled_for ≤ now ∧ a.web_push = true := by
    intro a ha
    have := List.of_mem_filter ha
    simpa [selectDueActions, and_assoc] using this
  have hdone : ∀ a ∈ selectDueActions db now,
      ∀ row ∈ (processNotificationsSweep db now).1.actions,
        row.id = a.id → row.status = "completed" := by
    intro a ha row hrow hid
    exact sweep_fold_completes now (selectDueActions db now) (db, []) a ha row hrow hid
  have hempty : selectDueActions (processNotificationsSweep db now).1 now = [] := by
    rw [List.eq_nil_iff_forall_not_mem]
    intro row hrow
    have hmem := List.mem_of_mem_filter hrow
    have hprops := List.of_mem_filter hrow
    simp only [Bool.and_eq_true, decide_eq_true_eq] at hprops
    obtain ⟨⟨hpend, hdue⟩, hweb⟩ := hprops
    obtain ⟨hsrc, hnot⟩ := sweep_fold_pending now (selectDueActions db now) (db, []) row hmem
      (by simpa using hpend)
    have hrowdue : row ∈ selectDueActions db now := by
      refine List.mem_filter.mpr ⟨hsrc, ?_⟩
      simp only [Bool.and_eq_true, decide_eq_true_eq]
      exact ⟨⟨hpend, hdue⟩, hweb⟩
    exact hnot row hrowdue rfl
  refine ⟨hsel, hdone, hempty, ?_⟩
  set r := (processNotificationsSweep db now).1 with hr
  unfold processNotificationsSweep
  rw [hempty]
  rfl

/-- C5 witness: a store with one pending, overdue, web-enabled reminder —
the first sweep processes it, the second processes nothing. -/
theorem c5_sweep_idempotent_witness :
    (processNotificationsSweep
      { actions := [{ id := 1, action_type := "reminder", scheduled_for := -5,
                      web_push := true, status := "pending", updated_at := 0,
                      task_title := some "call nigel" }], tasks := [] } 0).2 = [1]
    ∧ (processNotificationsSweep
        (processNotificationsSweep
          { actions := [{ id := 1, action_type := "reminder", scheduled_for := -5,
                          web_push := true, status := "pending", updated_at := 0,
                          task_title := some "call nigel" }], tasks := [] } 0).1 0).2 = [] :=
  ⟨by decide,
    (c5_sweep_idempotent
      { actions := [{ id := 1, action_type := "reminder", scheduled_for := -5,
                      web_push := true, status := "pending", updated_at := 0,
                      task_title := some "call nigel" }], tasks := [] } 0).2.2.2⟩

/-- A successful complete quantum forces all four characters valid. -/
theorem b64Group4_valid {a b c d : Char} {g : List Nat} (h : b64Group4 a b c d = some g) :
    base64CharVal a ≠ none ∧ base64CharVal b ≠ none
    ∧ base64CharVal c ≠ none ∧ base64CharVal d ≠ none := by
  unfold b64Group4 at h
  cases hva : base64CharVal a <;> cases hvb : base64CharVal b <;>
    cases hvc : base64CharVal c <;> cases hvd : base64CharVal d <;> simp_all

/-- A successful two-character leftover forces both characters valid. -/
theorem b64Group2_valid {a b : Char} {g : List Nat} (h : b64Group2 a b = some g) :
    base64CharVal a ≠ none ∧ base64CharVal b ≠ none := by
  unfold b64Group2 at h
  cases hva : base64CharVal a <;> cases hvb : base64CharVal b <;> simp_all

/-- A successful three-character leftover forces all three valid. -/
theorem b64Group3_valid {a b c : Char} {g : List Nat} (h : b64Group3 a b c = some g) :
    base64CharVal a ≠ none ∧ base64CharVal b ≠ none ∧ base64CharVal c ≠ none := by
  unfold b64Group3 at h
  cases hva : base64CharVal a <;> cases hvb : base64CharVal b <;>
    cases hvc : base64CharVal c <;> simp_all

/-- A successful decode of four or more characters splits into the first
quantum and the decoded rest. -/
theorem atobCore_cons4 {a b c d : Char} {rest : List Char} {bs : List Nat}
    (h : atobCore (a :: b :: c :: d :: rest) = some bs) :
    ∃ g tail, b64Group4 a b c d = some g ∧ atobCore rest = some tail ∧ bs = g ++ tail := by
  rw [atobCore] at h
  cases hg : b64Group4 a b c d with
  | none => rw [hg] at h; simp at h
  | some g =>
    cases htail : atobCore rest with
    | none => rw [hg, htail] at h; simp at h
    | some tail =>
      rw [hg, htail] at h
      simp only [Option.some.injEq] at h
      exact ⟨g, tail, rfl, rfl, h.symm⟩

/-- Every character of a successfully decoded list is in the base64
alphabet. -/
theorem atobCore_no_invalid : ∀ (xs : List Char) (bs : List Nat),
    atobCore xs = some bs → ∀ ch ∈ xs, base64CharVal ch ≠ none
  | [], _, _, ch, hch => by simp at hch
  | [_], _, h, ch, hch => by simp [atobCore] at h
  | [a, b], bs, h, ch, hch => by
    obtain ⟨hva, hvb⟩ := b64Group2_valid (g := bs) h
    simp only [List.mem_cons, List.not_mem_nil, or_false] at hch
    rcases hch with rfl | rfl <;> assumption
  | [a, b, c], bs, h, ch, hch => by
    obtain ⟨hva, hvb, hvc⟩ := b64Group3_valid (g := bs) h
    simp only [List.mem_cons, List.not_mem_nil, or_false] at hch
    rcases hch with rfl | rfl | rfl <;> assumption
  | a :: b :: c :: d :: e :: rest, bs, h, ch, hch => by
    obtain ⟨g, tail, hg, htail, -⟩ := atobCore_cons4 h
    obtain ⟨hva, hvb, hvc, hvd⟩ := b64Group4_valid hg
    simp only [List.mem_cons] at hch
    rcases hch with rfl | rfl | rfl | rfl | hch
    · exact hva
    · exact hvb
    · exact hvc
    · exact hvd
    · exact atobCore_no_invalid (e :: rest) tail htail ch (by simpa using hch)
  | [a, b, c, d], bs, h, ch, hch => by
    obtain ⟨g, tail, hg, htail, -⟩ := atobCore_cons4 h
    obtain ⟨hva, hvb, hvc, hvd⟩ := b64Group4_valid hg
    simp only [List.mem_cons, List.not_mem_nil, or_false] at hch
    rcases hch with rfl | rfl | rfl | rfl <;> assumption

/-- A successfully decoded list never has length `≡ 1 (mod 4)`. -/
theorem atobCore_mod_ne_one : ∀ (xs : List Char) (bs : List Nat),
    atobCore xs = some bs → xs.length % 4 ≠ 1
  | [], _, _ => by simp
  | [_], _, h => by simp [atobCore] at h
  | [_, _], _, _ => by simp
  | [_, _, _], _, _ => by simp
  | a :: b :: c :: d :: rest, bs, h => by
    obtain ⟨g, tail, hg, htail, -⟩ := atobCore_cons4 h
    have := atobCore_mod_ne_one rest tail htail
    simp only [List.length_cons]
    omega

/-- Splitting a decode at a quantum boundary: if the prefix length is a
multiple of four, the whole decode is the concatenation of the two
decodes. -/
theorem atobCore_append_split : ∀ (xs ys : List Char) (bs : List Nat),
    xs.length % 4 = 0 → atobCore (xs ++ ys) = some bs →
    ∃ b1 b2, atobCore xs = some b1 ∧ atobCore ys = some b2 ∧ bs = b1 ++ b2
  | [], ys, bs, _, h => ⟨[], bs, rfl, h, by simp⟩
  | [_], _, _, h4, _ => by simp at h4
  | [_, _], _, _, h4, _ => by simp at h4
  | [_, _, _], _, _, h4, _ => by simp at h4
  | a :: b :: c :: d :: rest, ys, bs, h4, h => by
    have h4' : rest.length % 4 = 0 := by
      simp only [List.length_cons] at h4
      omega
    simp only [List.cons_append] at h
    obtain ⟨g, tail, hg, htail, hbs⟩ := atobCore_cons4 h
    obtain ⟨b1, b2, hb1, hb2, htail_eq⟩ := atobCore_append_split rest ys tail h4' htail
    refine ⟨g ++ b1, b2, ?_, hb2, ?_⟩
    · rw [atobCore, hg, hb1]
    · rw [hbs, htail_eq, List.append_assoc]

/-- Padding stripping only inspects the tail: with at least two trailing
characters in `r`, stripping `c ++ r` strips within `r`. -/
theorem dropTrailingEq2_append (c r : List Char) (hr : 2 ≤ r.length) :
    dropTrailingEq2 (c ++ r) = c ++ dropTrailingEq2 r := by
  have hrne : r ≠ [] := by
    intro hnil; rw [hnil] at hr; simp at hr
  have hdlne : r.dropLast ≠ [] := by
    intro hnil
    have := congrArg List.length hnil
    simp only [List.length_dropLast, List.length_nil] at this
    omega
  by_cases h1 : r.getLast? = some '='
  · by_cases h2 : r.dropLast.getLast? = some '='
    · simp [dropTrailingEq2, List.getLast?_append_of_ne_nil c hrne,
        List.dropLast_append_of_ne_nil c hrne, List.getLast?_append_of_ne_nil c hdlne,
        List.dropLast_append_of_ne_nil c hdlne, h1, h2]
    · simp [dropTrailingEq2, List.getLast?_append_of_ne_nil c hrne,
        List.dropLast_append_of_ne_nil c hrne, List.getLast?_append_of_ne_nil c hdlne,
        h1, h2]
  · simp [dropTrailingEq2, List.getLast?_append_of_ne_nil c hrne, h1]

/-- Stripping is the identity on strings without `=`. -/
theorem dropTrailingEq2_of_not_mem {s : List Char} (h : '=' ∉ s) :
    dropTrailingEq2 s = s := by
  have hlast : ¬ s.getLast? = some '=' := by
    intro hl
    obtain ⟨hne, heq⟩ := List.mem_getLast?_eq_getLast (l := s) (x := '=')
      (by simp [Option.mem_def, hl])
    exact h (heq ▸ List.getLast_mem hne)
  simp [dropTrailingEq2, hlast]

/-- `=` is outside the base64 alphabet. -/
theorem base64CharVal_eq_char : base64CharVal '=' = none := by decide

/-- A decode that succeeds as a whole splits at the 32768-character chunk
boundary: both the first chunk and the rest decode, to the corresponding
pieces of the result. -/
theorem atob_take_drop (s : List Char) (bs : List Nat) (hlen : 32768 < s.length)
    (h : atob s = some bs) :
    ∃ b1 b2, atob (s.take 32768) = some b1 ∧ atob (s.drop 32768) = some b2 ∧ bs = b1 ++ b2 := by
  have hc_len : (s.take 32768).length = 32768 := by
    rw [List.length_take]; omega
  have hr_len : (s.drop 32768).length = s.length - 32768 := List.length_drop 32768 s
  have hcr : s.take 32768 ++ s.drop 32768 = s := List.take_append_drop 32768 s
  have hc4 : (s.take 32768).length % 4 = 0 := by rw [hc_len]
  unfold atob at h
  by_cases h4 : s.length % 4 = 0
  · rw [if_pos h4] at h
    have hr2 : 2 ≤ (s.drop 32768).length := by omega
    have hsplit_strip : dropTrailingEq2 s = s.take 32768 ++ dropTrailingEq2 (s.drop 32768) := by
      conv_lhs => rw [← hcr]
      exact dropTrailingEq2_append _ _ hr2
    rw [hsplit_strip] at h
    obtain ⟨b1, b2, hb1, hb2, hbs⟩ := atobCore_append_split _ _ bs hc4 h
    have hnoeq : '=' ∉ s.take 32768 := by
      intro hmem
      exact atobCore_no_invalid _ b1 hb1 '=' hmem base64CharVal_eq_char
    refine ⟨b1, b2, ?_, ?_, hbs⟩
    · unfold atob
      rw [if_pos hc4, dropTrailingEq2_of_not_mem hnoeq]
      exact hb1
    · unfold atob
      rw [if_pos (by omega : (s.drop 32768).length % 4 = 0)]
      exact hb2
  · rw [if_neg h4] at h
    rw [← hcr] at h
    obtain ⟨b1, b2, hb1, hb2, hbs⟩ := atobCore_append_split _ _ bs hc4 h
    have hnoeq : '=' ∉ s.take 32768 := by
      intro hmem
      exact atobCore_no_invalid _ b1 hb1 '=' hmem base64CharVal_eq_char
    refine ⟨b1, b2, ?_, ?_, hbs⟩
    · unfold atob
      rw [if_pos hc4, dropTrailingEq2_of_not_mem hnoeq]
      exact hb1
    · unfold atob
      rw [if_neg (by omega : ¬ (s.drop 32768).length % 4 = 0)]
      exact hb2

/-- C8: for every base64 input string the single-step decode accepts,
decoding in fixed 32768-character chunks and reassembling the decoded
chunks in input order yields exactly the same contiguous byte buffer. -/
theorem c8_chunked_decode (s : List Char) (bs : List Nat) (h : atob s = some bs) :
    processBase64Chunks s = some bs := by
  by_cases hemp : s.isEmpty
  · have hs : s = [] := by
      cases s with
      | nil => rfl
      | cons a l => simp [List.isEmpty] at hemp
    subst hs
    have hbs : bs = [] := by
      simpa [atob, dropTrailingEq2, atobCore] using h.symm
    subst hbs
    rw [processBase64Chunks]
    simp
  · by_cases hlen : s.length ≤ 32768
    · have ht : s.take 32768 = s := List.take_of_length_le hlen
      have hd : s.drop 32768 = [] := List.drop_eq_nil_of_le hlen
      rw [processBase64Chunks, if_neg (by simpa using hemp), ht, hd, h]
      rw [processBase64Chunks]
      simp
    · obtain ⟨b1, b2, hb1, hb2, hbs⟩ := atob_take_drop s bs (by omega) h
      have hrec := c8_chunked_decode (s.drop 32768) b2 hb2
      rw [processBase64Chunks, if_neg (by simpa using hemp), hb1, hrec, hbs]
termination_by s.length
decreasing_by
  simp only [List.length_drop]
  omega

/-- C8 witness: `"QUJDRA=="` decodes to `ABCD` both as a whole and in
chunks. -/
theorem c8_chunked_decode_witness :
    atob "QUJDRA==".data = some [65, 66, 67, 68]
    ∧ processBase64Chunks "QUJDRA==".data = some [65, 66, 67, 68] :=
  ⟨by decide, c8_chunked_decode _ _ (by decide)⟩

end NinjaNotes
